import Mathlib

/-!
Verification of the code-mode Tool Broker security layer.

This file gives a shallow embedding of the security-relevant parts of the
repository (the `SecurityManager` of src/security-manager.ts, the argument
mapping, mock replies and tool proxy of the local runtime manager, and the
mock generator of src/mcp-client-manager.ts) and proves or refutes the
frozen claims about them.

JavaScript values are modelled by `JVal`; JS exceptions are modelled with
`Option` (a `none` result is a thrown exception); machine time is a natural
number of milliseconds.
-/

/-! ## JSON value model -/

inductive JVal where
  | jnull
  | jbool (b : Bool)
  | jnum (n : Int)
  | jstr (s : String)
  | jarr (xs : List JVal)
  | jobj (fields : List (String × JVal))

open JVal

/-- Size measure on `JVal` used for termination of recursive definitions;
string keys do not count, so re-keying a list of values keeps the size. -/
def jsize : JVal → Nat
  | .jarr xs => 1 + jsizeL xs
  | .jobj fs => 1 + jsizeE fs
  | _ => 1
where
  jsizeL : List JVal → Nat
    | [] => 0
    | v :: r => 1 + jsize v + jsizeL r
  jsizeE : List (String × JVal) → Nat
    | [] => 0
    | (_, v) :: r => 1 + jsize v + jsizeE r

/-- `typeof v === 'object'` in JavaScript: true for objects, arrays and null. -/
def typeofIsObject : JVal → Bool
  | .jnull | .jarr _ | .jobj _ => true
  | _ => false

/-- First-match association-list lookup, as a JS `Map.get` / property read. -/
def lookupA {κ α : Type} [DecidableEq κ] (k : κ) : List (κ × α) → Option α
  | [] => none
  | (k₀, v) :: r => if k₀ = k then some v else lookupA k r

/-- `Map.set`: overwrite the first binding of the key, else append. -/
def setA {κ α : Type} [DecidableEq κ] (k : κ) (v : α) : List (κ × α) → List (κ × α)
  | [] => [(k, v)]
  | (k₀, v₀) :: r => if k₀ = k then (k, v) :: r else (k₀, v₀) :: setA k v r

/-- Property read on a `JVal`: objects expose their fields, all other values
have no (modelled) properties. -/
def getField (v : JVal) (k : String) : Option JVal :=
  match v with
  | .jobj fs => lookupA k fs
  | _ => none

/-- JS truthiness of a value (`if (v)`). -/
def jsTruthy : JVal → Bool
  | .jnull => false
  | .jbool b => b
  | .jnum n => n ≠ 0
  | .jstr s => s ≠ ""
  | .jarr _ => true
  | .jobj _ => true

/-! ## Case-insensitive pattern scrubbing (`sanitizeInputs` string rules)

The source removes, globally and case-insensitively, the fixed patterns
`<script ...>...</script>`, `javascript:`, `data:`, `vbscript:` and
`onload|onerror|onclick` from every string it sanitizes.  Strings are
modelled as their character lists; a pattern is given in lowercase. -/

/-- Does the lowercase pattern `pat` match at the head of `s`
(case-insensitively)? -/
def matchesCI (pat : List Char) (s : List Char) : Bool :=
  decide ((s.take pat.length).map Char.toLower = pat)

/-- One global, non-overlapping, case-insensitive removal pass of the literal
pattern `pat`, as a JS `str.replace(/pat/gi, '')`: scanning resumes after
each removed occurrence.  The `fuel` argument only serves structural
termination; every step consumes at least one character, so any fuel of at
least `s.length` gives the same (fuel-independent) result, and the wrapper
`scrub` below supplies exactly that. -/
def scrubF (pat : List Char) : Nat → List Char → List Char
  | _, [] => []
  | 0, s => s
  | fuel + 1, c :: rest =>
    if matchesCI pat (c :: rest) then
      scrubF pat fuel (rest.drop (pat.length - 1))
    else
      c :: scrubF pat fuel rest

def scrub (pat s : List Char) : List Char := scrubF pat s.length s

/-- First pattern of an ordered alternation matching at the head, with its
length, as the regex alternation `onload|onerror|onclick` tries branches
left to right. -/
def firstAltMatch (pats : List (List Char)) (s : List Char) : Option Nat :=
  match pats with
  | [] => none
  | p :: ps => if matchesCI p s then some p.length else firstAltMatch ps s

/-- Like `scrubF` but for an alternation of literal patterns, as
`str.replace(/onload|onerror|onclick/gi, '')`; same fuel convention. -/
def scrubAltF (pats : List (List Char)) : Nat → List Char → List Char
  | _, [] => []
  | 0, s => s
  | fuel + 1, c :: rest =>
    match firstAltMatch pats (c :: rest) with
    | some len => scrubAltF pats fuel (rest.drop (len - 1))
    | none => c :: scrubAltF pats fuel rest

def scrubAlt (pats : List (List Char)) (s : List Char) : List Char := scrubAltF pats s.length s

/-- Word character for the regex boundary `\b`. -/
def isWordChar (c : Char) : Bool :=
  (('a' ≤ c && c ≤ 'z') || ('A' ≤ c && c ≤ 'Z') || ('0' ≤ c && c ≤ '9') || c = '_')

/-- Length of characters up to (excluding) the first opening angle bracket:
the regex fragment matching a greedy run of characters other than the
opening bracket of a tag. -/
def countNonLt (s : List Char) : Nat :=
  (s.takeWhile (fun c => c ≠ '<')).length

/-- The loop of the script-tag regex after the opening tag: repeatedly accept
a tag-opening character that does not begin the closing tag, followed by a
greedy run of other characters, until the closing tag is found.  `acc` is
the number of characters consumed so far; on success the total match length
(including the 9-character closing tag) is returned.  The fuel argument
only serves structural termination (each iteration consumes at least one
character, so a fuel of at least the list length is always enough, and the
caller supplies exactly that).  The regex
`<script\b[^<]*(?:(?!<\/script>)<[^<]*)*<\/script>` is deterministic here:
the greedy runs are forced maximal, so no backtracking arises. -/
def scriptLoopF : Nat → List Char → Nat → Option Nat
  | fuel, s, acc =>
    if matchesCI "</script>".toList s then some (acc + 9)
    else
      match fuel, s with
      | fuelLeft + 1, '<' :: rest =>
        let k := countNonLt rest
        scriptLoopF fuelLeft (rest.drop k) (acc + 1 + k)
      | _, _ => none

/-- Length of the match of `<script\b[^<]*(?:(?!<\/script>)<[^<]*)*<\/script>`
(case-insensitive) at the head of `s`, if any. -/
def scriptMatchLen (s : List Char) : Option Nat :=
  if matchesCI "<script".toList s then
    let after := s.drop 7
    let boundaryOk : Bool := match after.head? with
      | some c => ! isWordChar c
      | none => true
    if boundaryOk then
      let k := countNonLt after
      scriptLoopF (after.drop k).length (after.drop k) (7 + k)
    else none
  else none

/-- Global removal of script-tag matches, as
`str.replace(/<script\b[^<]*(?:(?!<\/script>)<[^<]*)*<\/script>/gi, '')`. -/
def scrubScriptF : Nat → List Char → List Char
  | _, [] => []
  | 0, s => s
  | fuel + 1, c :: rest =>
    match scriptMatchLen (c :: rest) with
    | some len => scrubScriptF fuel (rest.drop (len - 1))
    | none => c :: scrubScriptF fuel rest

def scrubScript (s : List Char) : List Char := scrubScriptF s.length s

/-- The string sanitizer of `SecurityManager.sanitizeInputs`: the five
removal passes applied in source order. -/
def sanitizeString (s : String) : String :=
  ⟨scrubAlt ["onload".toList, "onerror".toList, "onclick".toList]
    (scrub "vbscript:".toList
      (scrub "data:".toList
        (scrub "javascript:".toList
          (scrubScript s.data))))⟩

/-! ## `SecurityManager.sanitizeInputs`

`sanitizeInputs(params)` walks a parameter record: string values get the
pattern removal above, plain objects are recursed into, arrays are mapped
with only their object-typed items recursed (string items inside arrays are
left alone), and other values are copied.  A recursive call on an array
re-keys it through `Object.entries` (index keys "0", "1", …); a recursive
call on `null` throws (`Object.entries(null)`), modelled as `none`. -/

mutual

def sanitizeInputs : List (String × JVal) → Option (List (String × JVal))
  | [] => some []
  | (k, v) :: rest =>
    match sanitizeEntryVal v, sanitizeInputs rest with
    | some v', some rest' => some ((k, v') :: rest')
    | _, _ => none

def sanitizeEntryVal : JVal → Option JVal
  | .jstr s => some (.jstr (sanitizeString s))
  | .jobj fs =>
    match sanitizeInputs fs with
    | some fs' => some (.jobj fs')
    | none => none
  | .jarr xs =>
    match sanitizeArrItems xs with
    | some xs' => some (.jarr xs')
    | none => none
  | v => some v

def sanitizeArrItems : List JVal → Option (List JVal)
  | [] => some []
  | v :: rest =>
    match (if typeofIsObject v then sanitizeInputsAny v else some v), sanitizeArrItems rest with
    | some v', some rest' => some (v' :: rest')
    | _, _ => none

/-- `this.sanitizeInputs(x)` on an arbitrary value `x`, as called on
object-typed array items and on the raw payload: `Object.entries(null)`
throws; an array is traversed through its index-keyed entries (the entry
body only inspects the value, with index keys carried along); numbers and
booleans have no own enumerable entries so yield an empty record (strings
never reach this call: every call site tests `typeof x === 'object'`). -/
def sanitizeInputsAny : JVal → Option JVal
  | .jnull => none
  | .jobj fs =>
    match sanitizeInputs fs with
    | some fs' => some (.jobj fs')
    | none => none
  | .jarr xs =>
    match sanitizeEnum 0 xs with
    | some fs' => some (.jobj fs')
    | none => none
  | _ => some (.jobj [])

def sanitizeEnum (n : Nat) : List JVal → Option (List (String × JVal))
  | [] => some []
  | v :: rest =>
    match sanitizeEntryVal v, sanitizeEnum (n + 1) rest with
    | some v', some rest' => some ((toString n, v') :: rest')
    | _, _ => none
termination_by structural l => l

end

/-! ## `SecurityManager.sanitizeForLogging`

Redaction before audit logging: a key containing (case-insensitively) one of
the sensitive words is replaced by the literal `"[REDACTED]"`; otherwise a
non-null object-typed value is recursed into (arrays through their
index-keyed entries) and a primitive is copied.  This function never
throws on values below the top level (it tests `value !== null`). -/

/-- Does `hay` contain `pat` as a contiguous sublist (`String.includes`)? -/
def containsSub (pat : List Char) : List Char → Bool
  | [] => decide (pat = [])
  | c :: rest => matchesAt pat (c :: rest) || containsSub pat rest
where
  matchesAt (pat s : List Char) : Bool := decide (s.take pat.length = pat)

def sensitiveKeys : List String :=
  ["password", "token", "secret", "key", "auth", "credential"]

/-- `sensitiveKeys.some(w => key.toLowerCase().includes(w))`. -/
def isSensitiveKey (k : String) : Bool :=
  sensitiveKeys.any (fun w => containsSub w.data (k.data.map Char.toLower))

mutual

def sanitizeForLogging : List (String × JVal) → List (String × JVal)
  | [] => []
  | (k, v) :: rest =>
    (k, if isSensitiveKey k then .jstr "[REDACTED]" else sanitizeForLoggingVal v)
      :: sanitizeForLogging rest

/-- The `else if (typeof value === 'object' && value !== null)` branch:
objects recurse, arrays recurse through index-keyed entries, anything else
is copied. -/
def sanitizeForLoggingVal : JVal → JVal
  | .jobj fs => .jobj (sanitizeForLogging fs)
  | .jarr xs => .jobj (sanitizeForLoggingEnum 0 xs)
  | v => v

def sanitizeForLoggingEnum (n : Nat) : List JVal → List (String × JVal)
  | [] => []
  | v :: rest =>
    (toString n, if isSensitiveKey (toString n) then .jstr "[REDACTED]"
                 else sanitizeForLoggingVal v)
      :: sanitizeForLoggingEnum (n + 1) rest
termination_by structural l => l

end

/-- `sanitizeForLogging(params)` on an arbitrary top-level value, as reached
through the tool proxy: `Object.entries(null)` throws, arrays are re-keyed,
numbers and booleans yield an empty record (strings never reach this
call, for the same reason as in `sanitizeInputsAny`). -/
def sanitizeForLoggingAny : JVal → Option (List (String × JVal))
  | .jnull => none
  | .jobj fs => some (sanitizeForLogging fs)
  | .jarr xs => some (sanitizeForLoggingEnum 0 xs)
  | _ => some []

/-! ## `JSON.stringify`

Compact serialization as used by `validatePayload`; integers print in
decimal, strings are quoted with the standard JSON escapes. -/

def hexDigit (n : Nat) : Char :=
  if n < 10 then Char.ofNat (48 + n) else Char.ofNat (87 + n)

/-- JSON escape of one character inside a quoted string. -/
def escChar (c : Char) : List Char :=
  if c = '"' then ['\\', '"']
  else if c = '\\' then ['\\', '\\']
  else if c = '\n' then ['\\', 'n']
  else if c = '\r' then ['\\', 'r']
  else if c = '\t' then ['\\', 't']
  else if c = Char.ofNat 8 then ['\\', 'b']
  else if c = Char.ofNat 12 then ['\\', 'f']
  else if c.toNat < 32 then
    ['\\', 'u', '0', '0', hexDigit (c.toNat / 16), hexDigit (c.toNat % 16)]
  else [c]

def quoteChars (s : List Char) : List Char :=
  '"' :: (s.flatMap escChar) ++ ['"']

mutual

def stringifyChars : JVal → List Char
  | .jnull => "null".toList
  | .jbool true => "true".toList
  | .jbool false => "false".toList
  | .jnum n => (toString n).toList
  | .jstr s => quoteChars s.data
  | .jarr xs => '[' :: stringifyItems xs ++ [']']
  | .jobj fs => Char.ofNat 123 :: stringifyFields fs ++ [Char.ofNat 125]

def stringifyItems : List JVal → List Char
  | [] => []
  | [v] => stringifyChars v
  | v :: rest => stringifyChars v ++ ',' :: stringifyItems rest

def stringifyFields : List (String × JVal) → List Char
  | [] => []
  | [(k, v)] => quoteChars k.data ++ ':' :: stringifyChars v
  | (k, v) :: rest => quoteChars k.data ++ ':' :: stringifyChars v ++ ',' :: stringifyFields rest
termination_by structural l => l

end

/-- `JSON.stringify` of a value, as a string. -/
def jsonStringify (v : JVal) : String :=
  ⟨stringifyChars v⟩

/-! ## The `SecurityManager` data model -/

/-- An `allowedTools` entry: the wildcard string or an explicit list. -/
inductive ToolRule where
  | wildcard
  | toolList (tools : List String)

structure RateLimitRule where
  requestsPerMinute : Nat
  maxConcurrent : Nat

structure SecurityPolicy where
  allowedServers : List String
  allowedTools : List (String × ToolRule)
  rateLimits : List (String × RateLimitRule)
  maxPayloadSize : Nat
  allowedDataTypes : List String
  sanitizeInputsFlag : Bool
  auditLogging : Bool

structure FileSystemPermissions where
  read : List String
  write : List String
  execute : List String

structure NetworkPermissions where
  allowedHosts : List String
  allowedPorts : List Nat

structure SecurityPermissions where
  fileSystem : FileSystemPermissions
  network : NetworkPermissions

structure SecurityContext where
  runtime : String
  permissions : SecurityPermissions

structure SecurityValidation where
  allowed : Bool
  reason : Option String

inductive AuditResult where
  | success
  | denied
  | error
deriving DecidableEq

structure AuditLogEntry where
  timestamp : Nat
  runtime : String
  serverName : String
  toolName : String
  params : List (String × JVal)
  result : AuditResult
  reason : Option String
  duration : Option Nat

/-- One per-minute counter: `count` plus the `window` creation instant. -/
structure RateCounter where
  count : Nat
  window : Nat

/-- The mutable state of a `SecurityManager`: the rate-limit counter map
(keyed by server name and minute-of-hour, the JS key being the string
`server:minute`), the concurrency map and the audit log. -/
structure SecState where
  rateLimitCounters : List ((String × Nat) × RateCounter)
  concurrentRequests : List (String × Nat)
  auditLog : List AuditLogEntry

def emptySecState : SecState := ⟨[], [], []⟩

/-- The policy built by the `SecurityManager` constructor when no overrides
are supplied. -/
def defaultPolicy : SecurityPolicy where
  allowedServers := ["automem", "serena", "helpscout", "wordpress"]
  allowedTools :=
    [("automem", .toolList ["store_memory", "recall", "associate", "analyze"]),
     ("serena", .toolList ["get_symbols_overview", "search_for_pattern"]),
     ("helpscout", .toolList ["searchConversations", "getConversationSummary"]),
     ("wordpress", .toolList ["get_site_info", "wp_feature_query-posts"])]
  rateLimits :=
    [("default", ⟨60, 5⟩), ("automem", ⟨100, 10⟩), ("serena", ⟨30, 3⟩),
     ("helpscout", ⟨20, 2⟩), ("wordpress", ⟨30, 3⟩)]
  maxPayloadSize := 1048576
  allowedDataTypes := ["string", "number", "boolean", "object", "array"]
  sanitizeInputsFlag := true
  auditLogging := true

/-! ## Security checks -/

/-- `checkRuntimePermissions`: external-network servers need a non-empty
allowed-host list; local-file servers deny file-flavoured tools when both
file-system permission lists are empty. -/
def checkRuntimePermissions (ctx : SecurityContext) (serverName toolName : String) : Bool :=
  if (serverName = "helpscout" || serverName = "wordpress")
      && ctx.permissions.network.allowedHosts.isEmpty then
    false
  else if (serverName = "serena" || serverName = "automem")
      && (containsSub "file".toList toolName.data
          || containsSub "read".toList toolName.data
          || containsSub "write".toList toolName.data)
      && ctx.permissions.fileSystem.read.isEmpty
      && ctx.permissions.fileSystem.write.isEmpty then
    false
  else
    true

/-- `rateLimits[serverName] || rateLimits.default`; `none` models the
`undefined` that the source would then crash on. -/
def effRateLimits (pol : SecurityPolicy) (serverName : String) : Option RateLimitRule :=
  match lookupA serverName pol.rateLimits with
  | some l => some l
  | none => lookupA "default" pol.rateLimits

/-- Minute-of-hour of an instant, as `new Date(now).getMinutes()`. -/
def getMinutesOf (now : Nat) : Nat := now / 60000 % 60

/-- Drop counters whose window instant is more than two minutes old. -/
def cleanupRateLimitCounters (now : Nat) (l : List ((String × Nat) × RateCounter)) :
    List ((String × Nat) × RateCounter) :=
  l.filter (fun e => ! decide (e.2.window + 120000 < now))

/-- The tail of `checkRateLimits` once the per-minute counter was bumped (or
created): test the concurrency cap; on success, purge stale counters. -/
def rateConcurrencyStep (limits : RateLimitRule) (serverName : String) (now : Nat)
    (st₁ : SecState) : Bool × SecState :=
  if (lookupA serverName st₁.concurrentRequests).getD 0 ≥ limits.maxConcurrent then
    (false, st₁)
  else
    let purged := cleanupRateLimitCounters now st₁.rateLimitCounters
    (true, { st₁ with rateLimitCounters := purged })

/-- `checkRateLimits`: bump (or create at 1) the per-minute counter, denying
immediately (and leaving the state alone) if it already reached the limit;
then test the concurrency cap and purge stale counters.  Returns the
admission verdict and the updated state; `none` when no rate-limit rule
(not even `default`) exists, where the source would crash on `undefined`. -/
def checkRateLimits (pol : SecurityPolicy) (serverName : String) (now : Nat)
    (st : SecState) : Option (Bool × SecState) :=
  match effRateLimits pol serverName with
  | none => none
  | some limits =>
    let key := (serverName, getMinutesOf now)
    match lookupA key st.rateLimitCounters with
    | some counter =>
      if counter.count ≥ limits.requestsPerMinute then some (false, st)
      else
        let bumped := setA key ⟨counter.count + 1, counter.window⟩ st.rateLimitCounters
        some (rateConcurrencyStep limits serverName now { st with rateLimitCounters := bumped })
    | none =>
      some (rateConcurrencyStep limits serverName now
        { st with rateLimitCounters := setA key ⟨1, now⟩ st.rateLimitCounters })

structure PayloadValidation where
  valid : Bool
  reason : Option String

/-- `validatePayload`: serialized size bound, then (if enabled) the
sanitize-and-compare check; a thrown sanitization (`none`) is caught and
reported as an invalid structure. -/
def validatePayload (pol : SecurityPolicy) (params : JVal) : PayloadValidation :=
  let serialized := jsonStringify params
  if serialized.length > pol.maxPayloadSize then
    ⟨false, some "Payload exceeds maximum size limit"⟩
  else if pol.sanitizeInputsFlag then
    match sanitizeInputsAny params with
    | some sanitized =>
      if jsonStringify sanitized ≠ serialized then
        ⟨false, some "Payload contains potentially unsafe content"⟩
      else ⟨true, none⟩
    | none => ⟨false, some "Invalid payload structure"⟩
  else ⟨true, none⟩

/-- Is the tool admitted by the server's `allowedTools` entry? (`'*'` admits
everything; a missing entry admits nothing.) -/
def toolAllowed (pol : SecurityPolicy) (serverName toolName : String) : Bool :=
  match lookupA serverName pol.allowedTools with
  | some .wildcard => true
  | some (.toolList ts) => toolName ∈ ts
  | none => false

/-- `performSecurityChecks`: the five ordered checks, stopping at the first
denial.  The first component is `none` when the source would throw (missing
rate-limit rule). -/
def performSecurityChecks (pol : SecurityPolicy) (ctx : SecurityContext)
    (serverName toolName : String) (params : JVal) (now : Nat) (st : SecState) :
    Option SecurityValidation × SecState :=
  if serverName ∉ pol.allowedServers then
    (some ⟨false, some ("Server " ++ serverName ++ " not in allowed list")⟩, st)
  else if ! toolAllowed pol serverName toolName then
    (some ⟨false, some ("Tool " ++ toolName ++ " not allowed on server " ++ serverName)⟩, st)
  else if ! checkRuntimePermissions ctx serverName toolName then
    (some ⟨false, some "Insufficient runtime permissions"⟩, st)
  else
    match checkRateLimits pol serverName now st with
    | none => (none, st)
    | some (false, st₁) => (some ⟨false, some "Rate limit exceeded"⟩, st₁)
    | some (true, st₁) =>
      let pv := validatePayload pol params
      if pv.valid then (some ⟨true, none⟩, st₁)
      else (some ⟨false, pv.reason⟩, st₁)

/-! ## Audit logging -/

/-- Append an entry and keep only the most recent 1,000. -/
def logAuditEntry (log : List AuditLogEntry) (entry : AuditLogEntry) : List AuditLogEntry :=
  let l := log ++ [entry]
  if l.length > 1000 then l.drop (l.length - 1000) else l

/-- `validateToolCall`: run the checks, then (when audit logging is on)
record exactly one entry carrying the redacted parameters and the verdict;
the `duration` field of the entry is left unset.  The first component is
`none` when the source would throw. -/
def validateToolCall (pol : SecurityPolicy) (ctx : SecurityContext)
    (serverName toolName : String) (params : JVal) (now : Nat) (st : SecState) :
    Option SecurityValidation × SecState :=
  match performSecurityChecks pol ctx serverName toolName params now st with
  | (none, st₁) => (none, st₁)
  | (some v, st₁) =>
    if pol.auditLogging then
      match sanitizeForLoggingAny params with
      | none => (none, st₁)
      | some redacted =>
        let entry : AuditLogEntry :=
          { timestamp := now
            runtime := ctx.runtime
            serverName := serverName
            toolName := toolName
            params := redacted
            result := if v.allowed then .success else .denied
            reason := v.reason
            duration := none }
        (some v, { st₁ with auditLog := logAuditEntry st₁.auditLog entry })
    else (some v, st₁)

/-- `trackRequestStart`. -/
def trackRequestStart (serverName : String) (st : SecState) : SecState :=
  let current := (lookupA serverName st.concurrentRequests).getD 0
  { st with concurrentRequests := setA serverName (current + 1) st.concurrentRequests }

/-- `trackRequestEnd`; `Math.max(0, current - 1)` is the truncated
subtraction on `Nat`. -/
def trackRequestEnd (serverName : String) (st : SecState) : SecState :=
  let current := (lookupA serverName st.concurrentRequests).getD 0
  { st with concurrentRequests := setA serverName (current - 1) st.concurrentRequests }

/-! ## Audit-log accessor -/

structure AuditFilter where
  serverName : Option String
  result : Option AuditResult
  since : Option Nat

/-- The predicate of `getAuditLog`'s filter; an empty server-name string is
falsy in the source and therefore ignored. -/
def passesFilter (f : AuditFilter) (e : AuditLogEntry) : Bool :=
  (match f.serverName with
   | none => true
   | some s => s = "" || e.serverName = s)
  && (match f.result with
      | none => true
      | some r => e.result = r)
  && (match f.since with
      | none => true
      | some t => ! decide (e.timestamp < t))

def filteredAuditLog (log : List AuditLogEntry) (filter : Option AuditFilter) :
    List AuditLogEntry :=
  match filter with
  | none => log
  | some f => log.filter (passesFilter f)

/-- `getAuditLog`: apply the optional filter, return the last 100 entries
(`slice(-100)`). -/
def getAuditLog (log : List AuditLogEntry) (filter : Option AuditFilter) :
    List AuditLogEntry :=
  let filtered := filteredAuditLog log filter
  filtered.drop (filtered.length - 100)

/-! ## Argument mapping (`convertArgsToParams`)

The runtime manager converts the positional argument vector of a sandbox
call into a named-parameter value.  Known tools map positions to names,
but only truthy arguments are assigned (`if (args[0]) params.content = …`);
unknown tools pass a single object-typed argument through unchanged and
otherwise synthesize `arg0, arg1, …` (every argument, truthy or not). -/

/-- A positional argument mapped to a named field only when truthy
(a missing argument reads as `undefined`, which is falsy). -/
def condField (name : String) (arg : Option JVal) : List (String × JVal) :=
  match arg with
  | some v => if jsTruthy v then [(name, v)] else []
  | none => []

def argNFields : Nat → List JVal → List (String × JVal)
  | _, [] => []
  | n, v :: rest => ("arg" ++ toString n, v) :: argNFields (n + 1) rest

def convertArgsToParams (toolName : String) (args : List JVal) : JVal :=
  match toolName with
  | "store_memory" =>
    .jobj (condField "content" (args.get? 0) ++ condField "importance" (args.get? 1)
      ++ condField "tags" (args.get? 2))
  | "recall" =>
    .jobj (condField "query" (args.get? 0) ++ condField "limit" (args.get? 1))
  | "searchConversations" =>
    .jobj (condField "query" (args.get? 0) ++ condField "status" (args.get? 1))
  | "get_site_info" => .jobj []
  | _ =>
    match args with
    | [a] => if typeofIsObject a then a else .jobj (argNFields 0 args)
    | _ => .jobj (argNFields 0 args)

/-! ## Mock replies -/

/-- `createLegacyMockResponse` of the runtime manager: the object
`\x7b mock: true, server, method, args \x7d` echoing the raw argument
vector. -/
def createLegacyMockResponse (serverName toolName : String) (args : List JVal) : JVal :=
  .jobj [("mock", .jbool true), ("server", .jstr serverName),
         ("method", .jstr toolName), ("args", .jarr args)]

/-- `generateRequestId` of the client manager: `req_<counter>_<now>` after
incrementing the counter. -/
def generateRequestId (counter now : Nat) : String :=
  "req_" ++ toString (counter + 1) ++ "_" ++ toString now

/-- `generateMockResponse` of the client manager: a JSON-RPC success
envelope whose result is the mock marker object; a `params` argument that
was not supplied is omitted. -/
def generateMockResponse (counter now : Nat) (method : String) (params : Option JVal) : JVal :=
  .jobj [("jsonrpc", .jstr "2.0"), ("id", .jstr (generateRequestId counter now)),
    ("result", .jobj ([("mock", .jbool true), ("method", .jstr method)]
      ++ (match params with | some p => [("params", p)] | none => [])
      ++ [("message", .jstr "Mock response - MCP server not available")]))]

/-! ## Response formatting (`formatMCPResponse`) -/

/-- JS string coercion as used by `Array.prototype.join`: `null` (and
`undefined`) become the empty string there; other values print in the usual
way, nested arrays joining with commas and objects as `[object Object]`. -/
def jsStringOf : JVal → String
  | .jnull => "null"
  | .jbool true => "true"
  | .jbool false => "false"
  | .jnum n => toString n
  | .jstr s => s
  | .jarr xs => joinElems "," xs
  | .jobj _ => "[object Object]"
where
  joinElems (sep : String) : List JVal → String
    | [] => ""
    | [v] => elemStr v
    | v :: rest => elemStr v ++ sep ++ joinElems sep rest
  elemStr : JVal → String
    | .jnull => ""
    | v => jsStringOf v

/-- One item of a structured `content` array: a `text`-typed block
contributes its `text` property, anything else contributes itself; `none`
models `undefined`. -/
def contentElem (item : JVal) : Option JVal :=
  match getField item "type" with
  | some (.jstr "text") => getField item "text"
  | _ => some item

/-- `content.map(...).join('\n')`, with `null`/`undefined` elements joining
as empty strings. -/
def joinContent (items : List JVal) : String :=
  String.intercalate "\n" (items.map (fun it =>
    match contentElem it with
    | none => ""
    | some .jnull => ""
    | some v => jsStringOf v))

/-- `formatMCPResponse`: a truthy `result` property is returned as-is, else
a truthy `content` property is joined (if an array) or returned, else the
whole response is returned. -/
def formatMCPResponse (response : JVal) : JVal :=
  let res := getField response "result"
  if (res.map jsTruthy).getD false then res.getD .jnull
  else
    let content := getField response "content"
    if (content.map jsTruthy).getD false then
      match content with
      | some (.jarr items) => .jstr (joinContent items)
      | some c => c
      | none => response
    else response

/-! ## The MCP tool proxy (`createMCPToolProxy`)

One invocation through the proxy: convert arguments, validate, and either
perform the remote call or return the legacy mock.  The entire body sits in
a `try` whose `catch` falls back to the legacy mock whenever
`fallbackToMocks` is set — including the `Access denied` error thrown on a
policy denial.  `remote` abstracts the awaited outcome of
`mcpClient.sendRequest` (`Except.error` is a thrown/rejected call). -/

inductive ProxyOutcome where
  | ok (v : JVal)
  | err (msg : String)

def mcpToolProxyCall (pol : SecurityPolicy) (ctx : SecurityContext)
    (fallbackToMocks serverAvailable : Bool) (remote : Except String JVal)
    (serverName toolName : String) (args : List JVal) (now : Nat) (st : SecState) :
    ProxyOutcome × SecState :=
  let params := convertArgsToParams toolName args
  match validateToolCall pol ctx serverName toolName params now st with
  | (none, st₁) =>
    -- an exception escaped validateToolCall: caught by the outer catch
    if fallbackToMocks then (.ok (createLegacyMockResponse serverName toolName args), st₁)
    else (.err "validateToolCall threw", st₁)
  | (some v, st₁) =>
    if ! v.allowed then
      -- `throw new Error("Access denied: ...")`, caught by the outer catch
      if fallbackToMocks then (.ok (createLegacyMockResponse serverName toolName args), st₁)
      else (.err ("Access denied: " ++ v.reason.getD "undefined"), st₁)
    else
      let st₂ := trackRequestStart serverName st₁
      if ! fallbackToMocks && serverAvailable then
        match remote with
        | .ok response => (.ok (formatMCPResponse response), trackRequestEnd serverName st₂)
        | .error e =>
          -- finally, then the outer catch (fallbackToMocks is false here)
          let st₃ := trackRequestEnd serverName st₂
          if fallbackToMocks then (.ok (createLegacyMockResponse serverName toolName args), st₃)
          else (.err e, st₃)
      else
        (.ok (createLegacyMockResponse serverName toolName args), trackRequestEnd serverName st₂)

/-! ## Specification-side ordered checks

For the refinement claim about check ordering, the specification's ordered
list of checks stopping at the first denial is defined independently, as a
fold over explicit check functions, and compared with the source's
`performSecurityChecks`. -/

inductive CheckOut where
  | pass (st : SecState)
  | deny (reason : Option String) (st : SecState)

/-- A single specification-side check: may consult and update the state,
`none` when the underlying code would throw. -/
def SpecCheck : Type := SecState → Option CheckOut

def serverCheckSpec (pol : SecurityPolicy) (serverName : String) : SpecCheck := fun st =>
  some (if serverName ∈ pol.allowedServers then .pass st
        else .deny (some ("Server " ++ serverName ++ " not in allowed list")) st)

def toolCheckSpec (pol : SecurityPolicy) (serverName toolName : String) : SpecCheck := fun st =>
  some (if toolAllowed pol serverName toolName then .pass st
        else .deny (some ("Tool " ++ toolName ++ " not allowed on server " ++ serverName)) st)

def permCheckSpec (ctx : SecurityContext) (serverName toolName : String) : SpecCheck := fun st =>
  some (if checkRuntimePermissions ctx serverName toolName then .pass st
        else .deny (some "Insufficient runtime permissions") st)

def rateCheckSpec (pol : SecurityPolicy) (serverName : String) (now : Nat) : SpecCheck := fun st =>
  (checkRateLimits pol serverName now st).map
    (fun r => if r.1 then .pass r.2 else .deny (some "Rate limit exceeded") r.2)

def payloadCheckSpec (pol : SecurityPolicy) (params : JVal) : SpecCheck := fun st =>
  let pv := validatePayload pol params
  some (if pv.valid then .pass st else .deny pv.reason st)

/-- Run checks in order, stopping at the first denial; all checks passing
yields an allow verdict. -/
def runChecks : List SpecCheck → SecState → Option SecurityValidation × SecState
  | [], st => (some ⟨true, none⟩, st)
  | c :: cs, st =>
    match c st with
    | none => (none, st)
    | some (.deny r st₁) => (some ⟨false, r⟩, st₁)
    | some (.pass st₁) => runChecks cs st₁

/-- The specification's check order: server allow-list, tool allow-list,
runtime permissions, rate/concurrency limits, payload validation. -/
def orderedSecurityChecks (pol : SecurityPolicy) (ctx : SecurityContext)
    (serverName toolName : String) (params : JVal) (now : Nat) : List SpecCheck :=
  [serverCheckSpec pol serverName,
   toolCheckSpec pol serverName toolName,
   permCheckSpec ctx serverName toolName,
   rateCheckSpec pol serverName now,
   payloadCheckSpec pol params]

/-! # Claims -/

/-! ## C10: `getAuditLog` returns at most the 100 most recent passing entries -/

/-- C10: although the audit ring retains the most recent 1,000 entries, the
public accessor `getAuditLog` returns at most the 100 most recent entries
that pass its optional filter — for every state of the log and every filter
(including no filter): the result has length `min 100` (number of passing
entries), is a suffix (i.e. the most recent part) of the passing entries in
order, and every returned entry passes the filter. -/
theorem getAuditLog_last_hundred (log : List AuditLogEntry) (filter : Option AuditFilter) :
    (getAuditLog log filter).length = min 100 (filteredAuditLog log filter).length ∧
    getAuditLog log filter <:+ filteredAuditLog log filter ∧
    ∀ e ∈ getAuditLog log filter, ∀ f, filter = some f → passesFilter f e = true := by
  refine ⟨?_, ?_, ?_⟩
  · simp only [getAuditLog, List.length_drop]
    omega
  · exact List.drop_suffix _ _
  · intro e he f hf
    subst hf
    have hm : e ∈ filteredAuditLog log (some f) := List.mem_of_mem_drop he
    simp only [filteredAuditLog] at hm
    exact (List.mem_filter.mp hm).2

/-- A concrete audit entry used by witnesses. -/
def auditEntryW : AuditLogEntry :=
  ⟨0, "typescript", "automem", "recall", [], .success, none, none⟩

/-- Witness for C10 at a one-entry log and the trivial filter. -/
theorem getAuditLog_last_hundred_witness :
    passesFilter ⟨none, none, none⟩ auditEntryW = true :=
  (getAuditLog_last_hundred [auditEntryW] (some ⟨none, none, none⟩)).2.2 auditEntryW
    (by simp [getAuditLog, filteredAuditLog, passesFilter, auditEntryW])
    ⟨none, none, none⟩ rfl

/-! ## C5: ordered checks, first denial wins -/

/-- C5: the policy decision is computed by ordered checks that stop at the
first denial — server allow-list, tool allow-list (wildcard accepts),
runtime permissions, rate/concurrency limits, payload validation — so when
a call fails several checks the reported reason is that of the earliest
failing check.  `performSecurityChecks` equals the specification-side fold
that runs the five checks in that order and stops at the first denial. -/
theorem performSecurityChecks_ordered (pol : SecurityPolicy) (ctx : SecurityContext)
    (serverName toolName : String) (params : JVal) (now : Nat) (st : SecState) :
    performSecurityChecks pol ctx serverName toolName params now st =
      runChecks (orderedSecurityChecks pol ctx serverName toolName params now) st := by
  by_cases h1 : serverName ∈ pol.allowedServers <;>
    by_cases h2 : toolAllowed pol serverName toolName <;>
      by_cases h3 : checkRuntimePermissions ctx serverName toolName <;>
        simp only [performSecurityChecks, orderedSecurityChecks, runChecks, serverCheckSpec,
          toolCheckSpec, permCheckSpec, rateCheckSpec, payloadCheckSpec, h1, h2, h3,
          if_true, if_false, Bool.not_true, Bool.not_false, if_pos, if_neg, not_true, not_false_iff,
          Bool.false_eq_true, ite_true, ite_false, reduceIte] <;>
        try rfl
  all_goals {
    rcases h4 : checkRateLimits pol serverName now st with _ | ⟨b, st₁⟩
    · simp [h4]
    · cases b <;>
        by_cases h5 : (validatePayload pol params).valid <;>
          simp [h4, h5]
  }

/-! ## C7: payload size boundary -/

/-- The non-size part of payload validation: disabled sanitization, or a
sanitization that succeeds and reproduces the serialized form. -/
def sanitizePasses (pol : SecurityPolicy) (params : JVal) : Bool :=
  !pol.sanitizeInputsFlag ||
    (match sanitizeInputsAny params with
     | some s => jsonStringify s == jsonStringify params
     | none => false)

/-- C7: payload validation denies on the serialized encoded length exceeding
`maxPayloadSize`: a payload of exactly the limit is accepted when the other
(sanitization) check passes, and one of length limit + 1 is denied with the
size reason. -/
theorem validatePayload_boundary (pol : SecurityPolicy) (params : JVal) :
    ((jsonStringify params).length = pol.maxPayloadSize →
      sanitizePasses pol params = true →
      validatePayload pol params = ⟨true, none⟩) ∧
    ((jsonStringify params).length = pol.maxPayloadSize + 1 →
      validatePayload pol params = ⟨false, some "Payload exceeds maximum size limit"⟩) := by
  constructor
  · intro hlen hp
    simp only [validatePayload, hlen, lt_irrefl, gt_iff_lt, if_neg (lt_irrefl _)]
    simp only [sanitizePasses, Bool.or_eq_true, Bool.not_eq_true'] at hp
    rcases hp with hflag | hpass
    · simp [hflag]
    · rcases h : sanitizeInputsAny params with _ | s
      · rw [h] at hpass; simp at hpass
      · rw [h] at hpass
        simp only [beq_iff_eq] at hpass
        simp [h, hpass]
  · intro hlen
    have : (jsonStringify params).length > pol.maxPayloadSize := by omega
    simp [validatePayload, this]

/-- Witness for C7: the empty record serializes to two characters; with a
2-byte limit it is accepted, with a 1-byte limit it is denied. -/
theorem validatePayload_boundary_witness :
    validatePayload { defaultPolicy with maxPayloadSize := 2 } (.jobj []) = ⟨true, none⟩ ∧
    validatePayload { defaultPolicy with maxPayloadSize := 1 } (.jobj [])
      = ⟨false, some "Payload exceeds maximum size limit"⟩ :=
  ⟨(validatePayload_boundary { defaultPolicy with maxPayloadSize := 2 } (.jobj [])).1
      (by simp [jsonStringify, stringifyChars, stringifyFields, String.length])
      (by simp [sanitizePasses, defaultPolicy, sanitizeInputsAny, sanitizeInputs]),
   (validatePayload_boundary { defaultPolicy with maxPayloadSize := 1 } (.jobj [])).2
      (by simp [jsonStringify, stringifyChars, stringifyFields, String.length])⟩

/-! ## C9: positional-to-named argument mapping -/

/-- C9 counterexample: the claim fails on the code in two ways.  A falsy
argument to the known tool `store_memory` is dropped instead of being
mapped (importance 0 yields a record without an `importance` field), and a
single array argument to an unknown tool is passed through unchanged
(`typeof [] === 'object'`) instead of being wrapped as `arg0`. -/
theorem convertArgsToParams_counterexample :
    convertArgsToParams "store_memory" [.jstr "hi", .jnum 0]
      = .jobj [("content", .jstr "hi")] ∧
    convertArgsToParams "store_memory" [.jstr "hi", .jnum 0]
      ≠ .jobj [("content", .jstr "hi"), ("importance", .jnum 0)] ∧
    convertArgsToParams "mystery" [.jarr []] = .jarr [] ∧
    convertArgsToParams "mystery" [.jarr []] ≠ .jobj [("arg0", .jarr [])] := by
  refine ⟨rfl, ?_, rfl, ?_⟩ <;> simp [convertArgsToParams, condField, jsTruthy, typeofIsObject]

def knownArgTools : List String :=
  ["store_memory", "recall", "searchConversations", "get_site_info"]

/-- C9 amended: for `store_memory`, each truthy argument is mapped to the
named parameters content, importance, tags in that order (a falsy argument
is omitted from the record); for an unknown tool, a single argument of
object type (which in JS includes arrays and null) is passed through
unchanged, and otherwise the arguments are mapped to arg0, arg1, … in
order. -/
theorem convertArgsToParams_amended :
    (∀ c i t : JVal, jsTruthy c = true → jsTruthy i = true → jsTruthy t = true →
      convertArgsToParams "store_memory" [c, i, t]
        = .jobj [("content", c), ("importance", i), ("tags", t)]) ∧
    (∀ toolName : String, toolName ∉ knownArgTools →
      (∀ a : JVal, typeofIsObject a = true → convertArgsToParams toolName [a] = a) ∧
      (∀ args : List JVal, (∀ a : JVal, args = [a] → typeofIsObject a = false) →
        convertArgsToParams toolName args = .jobj (argNFields 0 args))) := by
  constructor
  · intro c i t hc hi ht
    simp [convertArgsToParams, condField, hc, hi, ht]
  · intro toolName hmem
    simp only [knownArgTools, List.mem_cons, List.not_mem_nil, or_false, not_or] at hmem
    obtain ⟨h1, h2, h3, h4⟩ := hmem
    constructor
    · intro a hobj
      unfold convertArgsToParams
      split
      · exact absurd rfl h1
      · exact absurd rfl h2
      · exact absurd rfl h3
      · exact absurd rfl h4
      · simp [hobj]
    · intro args hargs
      unfold convertArgsToParams
      split
      · exact absurd rfl h1
      · exact absurd rfl h2
      · exact absurd rfl h3
      · exact absurd rfl h4
      · match args, hargs with
        | [], _ => rfl
        | [a], h => simp [h a rfl]
        | a :: b :: rest, _ => rfl

/-- Witness for C9 amended: concrete truthy arguments map to the named
parameters, and a two-argument unknown-tool call synthesizes arg0/arg1. -/
theorem convertArgsToParams_amended_witness :
    convertArgsToParams "store_memory" [.jstr "hi", .jnum 1, .jstr "tag"]
      = .jobj [("content", .jstr "hi"), ("importance", .jnum 1), ("tags", .jstr "tag")] ∧
    convertArgsToParams "mystery" [.jnum 1, .jnum 2]
      = .jobj [("arg0", .jnum 1), ("arg1", .jnum 2)] :=
  ⟨convertArgsToParams_amended.1 (.jstr "hi") (.jnum 1) (.jstr "tag")
      (by simp [jsTruthy]) (by simp [jsTruthy]) (by simp [jsTruthy]),
   by
    have h := (convertArgsToParams_amended.2 "mystery" (by simp [knownArgTools])).2
      [.jnum 1, .jnum 2] (by intro a ha; simp at ha)
    simpa [argNFields] using h⟩

/-! ## C1: policy denials through the tool proxy -/

/-- A concrete security context used in witnesses and counterexamples:
the default permissions of `getDefaultPermissions`. -/
def ctxW : SecurityContext :=
  ⟨"typescript", ⟨⟨["./data", "./config"], ["./temp"], []⟩, ⟨["localhost", "127.0.0.1"], [8001, 6379, 6333]⟩⟩⟩

/-- C1 counterexample: with fallback-to-mock enabled, a call denied by the
policy engine (server `nope` is not allow-listed) does NOT surface an
access-denied error — the thrown denial is caught by the proxy's catch
block and converted into the legacy mock reply. -/
theorem proxy_denial_mocked_counterexample :
    (mcpToolProxyCall defaultPolicy ctxW true false (.error "unused")
        "nope" "sometool" [] 0 emptySecState).1
      = .ok (createLegacyMockResponse "nope" "sometool" []) := by
  simp [mcpToolProxyCall, validateToolCall, performSecurityChecks, defaultPolicy,
    convertArgsToParams, argNFields, sanitizeForLoggingAny, sanitizeForLogging,
    logAuditEntry, toolAllowed, lookupA]

/-- C1 amended: a policy denial surfaces as an `Access denied` error only
when fallback-to-mock is disabled; when fallback-to-mock is enabled the
denial is converted into the legacy mock reply. -/
theorem proxy_denial_amended (pol : SecurityPolicy) (ctx : SecurityContext)
    (fb avail : Bool) (remote : Except String JVal) (serverName toolName : String)
    (args : List JVal) (now : Nat) (st : SecState) (v : SecurityValidation) (st₁ : SecState)
    (hval : validateToolCall pol ctx serverName toolName
      (convertArgsToParams toolName args) now st = (some v, st₁))
    (hden : v.allowed = false) :
    mcpToolProxyCall pol ctx fb avail remote serverName toolName args now st =
      (if fb then .ok (createLegacyMockResponse serverName toolName args)
       else .err ("Access denied: " ++ v.reason.getD "undefined"), st₁) := by
  cases fb <;> simp [mcpToolProxyCall, hval, hden]

/-- The audit entry recorded for the denied `nope` call of the C1 witness. -/
def deniedEntryW : AuditLogEntry :=
  ⟨0, "typescript", "nope", "sometool", [], .denied,
   some ("Server " ++ "nope" ++ " not in allowed list"), none⟩

/-- Witness for C1 amended: with fallback disabled the same denied call
surfaces as an access-denied error carrying the denial reason. -/
theorem proxy_denial_amended_witness :
    mcpToolProxyCall defaultPolicy ctxW false false (.error "unused")
        "nope" "sometool" [] 0 emptySecState
      = (.err ("Access denied: " ++ ("Server " ++ "nope" ++ " not in allowed list")),
         ⟨[], [], [deniedEntryW]⟩) := by
  have h := proxy_denial_amended defaultPolicy ctxW false false (.error "unused")
    "nope" "sometool" [] 0 emptySecState
    ⟨false, some ("Server " ++ "nope" ++ " not in allowed list")⟩ ⟨[], [], [deniedEntryW]⟩
    (by simp [validateToolCall, performSecurityChecks, defaultPolicy, convertArgsToParams,
      argNFields, sanitizeForLoggingAny, sanitizeForLogging, logAuditEntry, toolAllowed,
      lookupA, emptySecState, deniedEntryW, ctxW])
    rfl
  simpa using h

/-! ## C8: structure of the mock reply -/

/-- C8 counterexample: the mock returned for a degraded invocation of
`invoke("srv","any",{x:1})` has none of the fields the claim requires
(`mocked`, `tool`, `params_echo`); its actual fields are `mock`, `server`,
`method` and `args`, the last echoing the raw argument vector (an array
containing the parameter object, not the object itself). -/
theorem mockReply_counterexample :
    getField (createLegacyMockResponse "srv" "any" [.jobj [("x", .jnum 1)]]) "mocked" = none ∧
    getField (createLegacyMockResponse "srv" "any" [.jobj [("x", .jnum 1)]]) "tool" = none ∧
    getField (createLegacyMockResponse "srv" "any" [.jobj [("x", .jnum 1)]]) "params_echo" = none ∧
    getField (createLegacyMockResponse "srv" "any" [.jobj [("x", .jnum 1)]]) "mock"
      = some (.jbool true) ∧
    getField (createLegacyMockResponse "srv" "any" [.jobj [("x", .jnum 1)]]) "args"
      = some (.jarr [.jobj [("x", .jnum 1)]]) := by
  refine ⟨rfl, rfl, rfl, rfl, rfl⟩

/-- C8 amended: when the policy admits the call and the server is treated as
unavailable (or fallback-to-mock is on), the proxy returns the legacy mock
`mock: true, server, method, args` echoing the raw argument vector; the
client-manager-level mock is a JSON-RPC envelope whose result carries
`mock: true, method, params, message`. -/
theorem mockReply_amended :
    (∀ (pol : SecurityPolicy) (ctx : SecurityContext) (fb avail : Bool)
        (remote : Except String JVal) (serverName toolName : String) (args : List JVal)
        (now : Nat) (st : SecState) (v : SecurityValidation) (st₁ : SecState),
      validateToolCall pol ctx serverName toolName
          (convertArgsToParams toolName args) now st = (some v, st₁) →
      v.allowed = true → (fb = true ∨ avail = false) →
      mcpToolProxyCall pol ctx fb avail remote serverName toolName args now st
        = (.ok (createLegacyMockResponse serverName toolName args),
           trackRequestEnd serverName (trackRequestStart serverName st₁))) ∧
    (∀ (s t : String) (args : List JVal),
      getField (createLegacyMockResponse s t args) "mock" = some (.jbool true) ∧
      getField (createLegacyMockResponse s t args) "server" = some (.jstr s) ∧
      getField (createLegacyMockResponse s t args) "method" = some (.jstr t) ∧
      getField (createLegacyMockResponse s t args) "args" = some (.jarr args)) ∧
    (∀ (counter now : Nat) (method : String) (p : JVal),
      getField (generateMockResponse counter now method (some p)) "jsonrpc"
        = some (.jstr "2.0") ∧
      getField (generateMockResponse counter now method (some p)) "result"
        = some (.jobj [("mock", .jbool true), ("method", .jstr method), ("params", p),
            ("message", .jstr "Mock response - MCP server not available")])) := by
  refine ⟨?_, ?_, ?_⟩
  · intro pol ctx fb avail remote serverName toolName args now st v st₁ hval hall hfb
    rcases hfb with hfb | hfb <;> subst hfb
    · simp [mcpToolProxyCall, hval, hall]
    · cases fb <;> simp [mcpToolProxyCall, hval, hall]
  · intro s t args
    refine ⟨rfl, rfl, rfl, rfl⟩
  · intro counter now method p
    refine ⟨rfl, rfl⟩

set_option maxRecDepth 10000 in
/-- Witness for C8 amended: a concrete admitted call to `automem.recall`
with the server unavailable returns the legacy mock echoing the raw
argument vector. -/
theorem mockReply_amended_witness :
    (mcpToolProxyCall defaultPolicy ctxW true false (.error "unused")
        "automem" "recall" [.jobj [("x", .jnum 1)]] 0 emptySecState).1
      = .ok (createLegacyMockResponse "automem" "recall" [.jobj [("x", .jnum 1)]]) := by
  have h := mockReply_amended.1 defaultPolicy ctxW true false (.error "unused")
    "automem" "recall" [.jobj [("x", .jnum 1)]] 0 emptySecState
    ⟨true, none⟩
    ((validateToolCall defaultPolicy ctxW "automem" "recall"
      (convertArgsToParams "recall" [.jobj [("x", .jnum 1)]]) 0 emptySecState).2)
    ?hval rfl (Or.inl rfl)
  · rw [h]
  case hval => rfl

/-! ## C2: audit coverage of `validateToolCall` -/

/-- `checkRateLimits` only ever touches the rate-limit counter map: the
audit log and the concurrency map pass through unchanged. -/
theorem checkRateLimits_preserves (pol : SecurityPolicy) (s : String) (now : Nat)
    (st : SecState) (b : Bool) (st' : SecState)
    (h : checkRateLimits pol s now st = some (b, st')) :
    st'.auditLog = st.auditLog ∧ st'.concurrentRequests = st.concurrentRequests := by
  unfold checkRateLimits at h
  rcases hl : effRateLimits pol s with _ | limits
  · rw [hl] at h; simp at h
  · have hstep : ∀ st₁ : SecState,
        (rateConcurrencyStep limits s now st₁).2.auditLog = st₁.auditLog ∧
        (rateConcurrencyStep limits s now st₁).2.concurrentRequests = st₁.concurrentRequests := by
      intro st₁
      unfold rateConcurrencyStep
      split <;> exact ⟨rfl, rfl⟩
    rcases hc : lookupA (s, getMinutesOf now) st.rateLimitCounters with _ | counter <;>
      simp only [hl, hc] at h
    · simp only [Option.some.injEq] at h
      have h2 := congrArg Prod.snd h
      dsimp only at h2
      rw [← h2]
      exact hstep _
    · split at h <;> simp only [Option.some.injEq, Prod.mk.injEq] at h
      · obtain ⟨hb, hst⟩ := h
        subst hst
        exact ⟨rfl, rfl⟩
      · have h2 := congrArg Prod.snd h
        dsimp only at h2
        rw [← h2]
        exact hstep _

/-- `performSecurityChecks` never writes to the audit log. -/
theorem performSecurityChecks_auditLog (pol : SecurityPolicy) (ctx : SecurityContext)
    (serverName toolName : String) (params : JVal) (now : Nat) (st : SecState) :
    (performSecurityChecks pol ctx serverName toolName params now st).2.auditLog
      = st.auditLog := by
  unfold performSecurityChecks
  split
  · rfl
  · split
    · rfl
    · split
      · rfl
      · rcases h : checkRateLimits pol serverName now st with _ | ⟨b, st₁⟩
        · rfl
        · have := (checkRateLimits_preserves pol serverName now st b st₁ h).1
          cases b <;> simp only [this] <;> split <;> exact this

/-- C2 counterexample: an admitted call to `automem.recall` (outcome
`success`, i.e. not `denied`) produces an audit entry whose `duration`
field is not set — `validateToolCall` never writes one. -/
theorem auditEntry_duration_counterexample :
    ((validateToolCall defaultPolicy ctxW "automem" "recall" (.jobj []) 0
        emptySecState).2.auditLog.map (fun e => (e.result, e.duration)))
      = [(.success, none)] := rfl

/-- C2 amended: if audit logging is enabled, every (non-throwing) call to
`validateToolCall` appends exactly one audit entry to the ring; its outcome
is `success` exactly when the call was allowed and `denied` otherwise
(never `error` at this layer), and its `duration` field is never set. -/
theorem validateToolCall_audit_amended (pol : SecurityPolicy) (ctx : SecurityContext)
    (serverName toolName : String) (params : JVal) (now : Nat) (st : SecState)
    (v : SecurityValidation) (st₁ : SecState)
    (haudit : pol.auditLogging = true)
    (h : validateToolCall pol ctx serverName toolName params now st = (some v, st₁)) :
    ∃ e : AuditLogEntry,
      st₁.auditLog = logAuditEntry st.auditLog e ∧
      e.duration = none ∧
      (e.result = .success ∨ e.result = .denied) ∧
      (e.result = .success ↔ v.allowed = true) := by
  unfold validateToolCall at h
  rcases hsec : performSecurityChecks pol ctx serverName toolName params now st
    with ⟨ov, st₂⟩
  rw [hsec] at h
  rcases ov with _ | v'
  · simp at h
  · simp only [haudit, if_true] at h
    rcases hred : sanitizeForLoggingAny params with _ | redacted
    · rw [hred] at h; simp at h
    · rw [hred] at h
      injection h with hv hst
      injection hv with hv
      have hlog : st₂.auditLog = st.auditLog := by
        have hp := performSecurityChecks_auditLog pol ctx serverName toolName params now st
        rw [hsec] at hp
        exact hp
      subst hv
      refine ⟨⟨now, ctx.runtime, serverName, toolName, redacted,
        (if v'.allowed then .success else .denied), v'.reason, none⟩, ?_, rfl, ?_, ?_⟩
      · rw [← hst]
        simp [hlog]
      · cases v'.allowed <;> simp
      · cases v'.allowed <;> simp

/-- Witness for C2 amended, at the concrete admitted `automem.recall` call
of the counterexample. -/
theorem validateToolCall_audit_amended_witness :
    ∃ e : AuditLogEntry,
      (validateToolCall defaultPolicy ctxW "automem" "recall" (.jobj []) 0
          emptySecState).2.auditLog
        = logAuditEntry emptySecState.auditLog e ∧
      e.duration = none ∧
      (e.result = .success ∨ e.result = .denied) ∧
      (e.result = .success ↔ (true : Bool) = true) :=
  validateToolCall_audit_amended defaultPolicy ctxW "automem" "recall" (.jobj []) 0
    emptySecState ⟨true, none⟩ _ rfl rfl

/-! ## C3: redaction of sensitive keys in audit parameters -/

/-- `EntryIn k v j`: the object entry `(k, v)` occurs somewhere inside the
value `j`, at any nesting depth (through both objects and arrays). -/
inductive EntryIn : String → JVal → JVal → Prop
  | here {k : String} {v : JVal} {fs : List (String × JVal)} :
      (k, v) ∈ fs → EntryIn k v (.jobj fs)
  | nestObj {k : String} {v : JVal} {k' : String} {v' : JVal} {fs : List (String × JVal)} :
      (k', v') ∈ fs → EntryIn k v v' → EntryIn k v (.jobj fs)
  | nestArr {k : String} {v : JVal} {v' : JVal} {xs : List JVal} :
      v' ∈ xs → EntryIn k v v' → EntryIn k v (.jarr xs)

/-- A value's size is below the size of any entry list containing it. -/
theorem mem_jsizeE {k : String} {v : JVal} {fs : List (String × JVal)}
    (h : (k, v) ∈ fs) : jsize v < jsize.jsizeE fs := by
  induction fs with
  | nil => cases h
  | cons hd tl ih =>
    rcases List.mem_cons.mp h with heq | hmem
    · obtain ⟨k₀, v₀⟩ := hd
      injection heq with h1 h2
      subst h2
      simp [jsize.jsizeE]
      omega
    · obtain ⟨k₀, v₀⟩ := hd
      have := ih hmem
      simp [jsize.jsizeE]
      omega

/-- A value's size is below the size of any value list containing it. -/
theorem mem_jsizeL {v : JVal} {xs : List JVal} (h : v ∈ xs) :
    jsize v < jsize.jsizeL xs := by
  induction xs with
  | nil => cases h
  | cons hd tl ih =>
    rcases List.mem_cons.mp h with heq | hmem
    · subst heq; simp [jsize.jsizeL]; omega
    · have := ih hmem
      simp [jsize.jsizeL]
      omega

/-- Entries of `sanitizeForLogging` output under a sensitive key are the
redaction marker. -/
theorem mem_sanitizeForLogging_sensitive {k' : String} {v' : JVal}
    {fs : List (String × JVal)} (h : (k', v') ∈ sanitizeForLogging fs)
    (hs : isSensitiveKey k' = true) : v' = .jstr "[REDACTED]" := by
  induction fs with
  | nil => cases h
  | cons hd tl ih =>
    obtain ⟨k₀, v₀⟩ := hd
    simp only [sanitizeForLogging, List.mem_cons] at h
    rcases h with heq | hmem
    · injection heq with h1 h2
      subst h1
      rw [hs] at h2
      simp at h2
      exact h2
    · exact ih hmem

/-- Entries of `sanitizeForLogging` output are either the redaction marker
or the recursively sanitized original value under the same key. -/
theorem mem_sanitizeForLogging_shape {k' : String} {v' : JVal}
    {fs : List (String × JVal)} (h : (k', v') ∈ sanitizeForLogging fs) :
    v' = .jstr "[REDACTED]" ∨ ∃ v₀, (k', v₀) ∈ fs ∧ v' = sanitizeForLoggingVal v₀ := by
  induction fs with
  | nil => cases h
  | cons hd tl ih =>
    obtain ⟨k₀, v₀⟩ := hd
    simp only [sanitizeForLogging, List.mem_cons] at h
    rcases h with heq | hmem
    · injection heq with h1 h2
      subst h1
      by_cases hs : isSensitiveKey k'
      · rw [if_pos hs] at h2
        exact Or.inl h2
      · rw [if_neg hs] at h2
        exact Or.inr ⟨v₀, List.mem_cons_self _ _, h2⟩
    · rcases ih hmem with h | ⟨w, hw, hww⟩
      · exact Or.inl h
      · exact Or.inr ⟨w, List.mem_cons_of_mem _ hw, hww⟩

/-- Entries of `sanitizeForLoggingEnum` output under a sensitive key are the
redaction marker. -/
theorem mem_sanitizeForLoggingEnum_sensitive {k' : String} {v' : JVal} :
    ∀ {m : Nat} {xs : List JVal}, (k', v') ∈ sanitizeForLoggingEnum m xs →
      isSensitiveKey k' = true → v' = .jstr "[REDACTED]" := by
  intro m xs
  induction xs generalizing m with
  | nil => intro h; cases h
  | cons hd tl ih =>
    intro h hs
    simp only [sanitizeForLoggingEnum, List.mem_cons] at h
    rcases h with heq | hmem
    · injection heq with h1 h2
      subst h1
      rw [hs] at h2
      simp at h2
      exact h2
    · exact ih hmem hs

/-- Entries of `sanitizeForLoggingEnum` output are the redaction marker or
the sanitization of one of the array items. -/
theorem mem_sanitizeForLoggingEnum_shape {k' : String} {v' : JVal} :
    ∀ {m : Nat} {xs : List JVal}, (k', v') ∈ sanitizeForLoggingEnum m xs →
      v' = .jstr "[REDACTED]" ∨ ∃ v₀, v₀ ∈ xs ∧ v' = sanitizeForLoggingVal v₀ := by
  intro m xs
  induction xs generalizing m with
  | nil => intro h; cases h
  | cons hd tl ih =>
    intro h
    simp only [sanitizeForLoggingEnum, List.mem_cons] at h
    rcases h with heq | hmem
    · injection heq with h1 h2
      by_cases hs : isSensitiveKey (toString m)
      · rw [if_pos hs] at h2
        exact Or.inl h2
      · rw [if_neg hs] at h2
        exact Or.inr ⟨hd, List.mem_cons_self _ _, h2⟩
    · rcases ih hmem with h | ⟨w, hw, hww⟩
      · exact Or.inl h
      · exact Or.inr ⟨w, List.mem_cons_of_mem _ hw, hww⟩

/-- Bounded-size core of the redaction theorem, by strong induction on the
size of the (pre-sanitization) entry or item list. -/
theorem redacted_aux : ∀ n : Nat,
    (∀ fs : List (String × JVal), jsize.jsizeE fs ≤ n →
      ∀ (k : String) (v : JVal), EntryIn k v (.jobj (sanitizeForLogging fs)) →
        isSensitiveKey k = true → v = .jstr "[REDACTED]") ∧
    (∀ (m : Nat) (xs : List JVal), jsize.jsizeL xs ≤ n →
      ∀ (k : String) (v : JVal), EntryIn k v (.jobj (sanitizeForLoggingEnum m xs)) →
        isSensitiveKey k = true → v = .jstr "[REDACTED]") := by
  intro n
  induction n using Nat.strong_induction_on with
  | _ n ih =>
    have step : ∀ (v₀ : JVal), jsize v₀ ≤ n →
        ∀ (k : String) (v : JVal), EntryIn k v (sanitizeForLoggingVal v₀) →
          isSensitiveKey k = true → v = .jstr "[REDACTED]" := by
      intro v₀ hsz k v hrec hsens
      match v₀ with
      | .jnull | .jbool _ | .jnum _ | .jstr _ =>
        simp only [sanitizeForLoggingVal] at hrec
        cases hrec
      | .jobj fs₀ =>
        simp only [sanitizeForLoggingVal] at hrec
        have hszE : jsize.jsizeE fs₀ < n := by
          have : jsize (JVal.jobj fs₀) = 1 + jsize.jsizeE fs₀ := rfl
          omega
        exact (ih (jsize.jsizeE fs₀) hszE).1 fs₀ le_rfl k v hrec hsens
      | .jarr xs =>
        simp only [sanitizeForLoggingVal] at hrec
        have hszL : jsize.jsizeL xs < n := by
          have : jsize (JVal.jarr xs) = 1 + jsize.jsizeL xs := rfl
          omega
        exact (ih (jsize.jsizeL xs) hszL).2 0 xs le_rfl k v hrec hsens
    constructor
    · intro fs hsz k v hin hsens
      cases hin with
      | here hmem => exact mem_sanitizeForLogging_sensitive hmem hsens
      | nestObj hmem hrec =>
        rcases mem_sanitizeForLogging_shape hmem with hred | ⟨v₀, hv₀, rfl⟩
        · subst hred; cases hrec
        · have hv₀sz : jsize v₀ < jsize.jsizeE fs := mem_jsizeE hv₀
          exact step v₀ (by omega) k v hrec hsens
    · intro m xs hsz k v hin hsens
      cases hin with
      | here hmem => exact mem_sanitizeForLoggingEnum_sensitive hmem hsens
      | nestObj hmem hrec =>
        rcases mem_sanitizeForLoggingEnum_shape hmem with hred | ⟨v₀, hv₀, rfl⟩
        · subst hred; cases hrec
        · have hv₀sz : jsize v₀ < jsize.jsizeL xs := mem_jsizeL hv₀
          exact step v₀ (by omega) k v hrec hsens

/-- C3: every key at any nesting depth of a redacted parameter record that
matches the sensitive-key test (the source's case-insensitive containment
of password/token/secret/key/auth/credential, which subsumes the claim's
exact case-insensitive match) stores the literal `"[REDACTED]"` — so no
audit entry holds an original value under such a key. -/
theorem sanitizeForLogging_redacts (params : JVal) (out : List (String × JVal))
    (k : String) (v : JVal)
    (hout : sanitizeForLoggingAny params = some out)
    (hin : EntryIn k v (.jobj out))
    (hsens : isSensitiveKey k = true) : v = .jstr "[REDACTED]" := by
  match params with
  | .jnull => simp [sanitizeForLoggingAny] at hout
  | .jobj fs =>
    simp only [sanitizeForLoggingAny, Option.some.injEq] at hout
    subst hout
    exact (redacted_aux (jsize.jsizeE fs)).1 fs le_rfl k v hin hsens
  | .jarr xs =>
    simp only [sanitizeForLoggingAny, Option.some.injEq] at hout
    subst hout
    exact (redacted_aux (jsize.jsizeL xs)).2 0 xs le_rfl k v hin hsens
  | .jbool _ | .jnum _ | .jstr _ =>
    simp only [sanitizeForLoggingAny, Option.some.injEq] at hout
    subst hout
    cases hin with
    | here hmem => cases hmem
    | nestObj hmem hrec => cases hmem

/-- Witness for C3: a concrete record with a `token` key is redacted. -/
theorem sanitizeForLogging_redacts_witness :
    isSensitiveKey "token" = true ∧ JVal.jstr "[REDACTED]" = .jstr "[REDACTED]" :=
  ⟨by decide,
   sanitizeForLogging_redacts (.jobj [("token", .jstr "t0")]) _ "token"
     (.jstr "[REDACTED]") rfl (EntryIn.here (List.Mem.head _)) (by decide)⟩

/-! ## C6: per-minute rate limiting -/

theorem lookupA_setA_self {κ α : Type} [DecidableEq κ] (k : κ) (v : α)
    (l : List (κ × α)) : lookupA k (setA k v l) = some v := by
  induction l with
  | nil => simp [setA, lookupA]
  | cons hd tl ih =>
    obtain ⟨k₀, v₀⟩ := hd
    by_cases h : k₀ = k <;> simp [setA, lookupA, h, ih]

theorem lookupA_setA_ne {κ α : Type} [DecidableEq κ] {k k' : κ} (v : α)
    (l : List (κ × α)) (h : k' ≠ k) : lookupA k' (setA k v l) = lookupA k' l := by
  have h' : ¬ (k = k') := fun he => h he.symm
  induction l with
  | nil => simp [setA, lookupA, h']
  | cons hd tl ih =>
    obtain ⟨k₀, v₀⟩ := hd
    by_cases hk : k₀ = k
    · subst hk
      simp [setA, lookupA, h']
    · simp only [setA, if_neg hk, lookupA]
      by_cases hk' : k₀ = k' <;> simp [hk', ih]

theorem lookupA_cleanup_none (now : Nat) (k : String × Nat)
    (l : List ((String × Nat) × RateCounter)) (h : lookupA k l = none) :
    lookupA k (cleanupRateLimitCounters now l) = none := by
  induction l with
  | nil => simp [cleanupRateLimitCounters, lookupA]
  | cons hd tl ih =>
    obtain ⟨k₀, c₀⟩ := hd
    simp only [lookupA] at h
    by_cases hk : k₀ = k
    · rw [if_pos hk] at h; cases h
    · rw [if_neg hk] at h
      simp only [cleanupRateLimitCounters, List.filter_cons] at *
      split
      · simp only [lookupA, if_neg hk]
        exact ih h
      · exact ih h

theorem lookupA_cleanup_keep (now : Nat) (k : String × Nat)
    (l : List ((String × Nat) × RateCounter)) (c : RateCounter)
    (h : lookupA k l = some c) (hc : ¬ (c.window + 120000 < now)) :
    lookupA k (cleanupRateLimitCounters now l) = some c := by
  induction l with
  | nil => simp [lookupA] at h
  | cons hd tl ih =>
    obtain ⟨k₀, c₀⟩ := hd
    simp only [lookupA] at h
    by_cases hk : k₀ = k
    · rw [if_pos hk] at h
      injection h with h
      subst h
      simp only [cleanupRateLimitCounters, List.filter_cons]
      rw [if_pos (by simpa using hc)]
      simp [lookupA, hk]
    · rw [if_neg hk] at h
      simp only [cleanupRateLimitCounters, List.filter_cons] at *
      split
      · simp only [lookupA, if_neg hk]
        exact ih h
      · exact ih h

/-- The state after one `checkRateLimits` call (a crash leaves the state). -/
def rateStepState (pol : SecurityPolicy) (s : String) (now : Nat) (st : SecState) : SecState :=
  match checkRateLimits pol s now st with
  | some r => r.2
  | none => st

/-- The verdict of one `checkRateLimits` call. -/
def rateStepOk (pol : SecurityPolicy) (s : String) (now : Nat) (st : SecState) : Bool :=
  match checkRateLimits pol s now st with
  | some r => r.1
  | none => false

/-- One admission with no stored counter for this server and minute: passes
(concurrency below cap), creates the counter at 1 with the current window,
and leaves the concurrency map alone. -/
theorem rateStep_fresh (pol : SecurityPolicy) (s : String) (lim : RateLimitRule)
    (now : Nat) (st₀ : SecState) (hlim : effRateLimits pol s = some lim)
    (hfresh : lookupA (s, getMinutesOf now) st₀.rateLimitCounters = none)
    (hconc : (lookupA s st₀.concurrentRequests).getD 0 < lim.maxConcurrent) :
    rateStepOk pol s now st₀ = true ∧
    (rateStepState pol s now st₀).rateLimitCounters
      = cleanupRateLimitCounters now
          (setA (s, getMinutesOf now) ⟨1, now⟩ st₀.rateLimitCounters) ∧
    (rateStepState pol s now st₀).concurrentRequests = st₀.concurrentRequests := by
  have hne : ¬ ((lookupA s st₀.concurrentRequests).getD 0 ≥ lim.maxConcurrent) := by omega
  refine ⟨?_, ?_, ?_⟩ <;>
    simp [rateStepOk, rateStepState, checkRateLimits, hlim, hfresh, rateConcurrencyStep, hne]

/-- One admission with a stored counter below the limit: passes, bumps the
counter (keeping its window), and leaves the concurrency map alone. -/
theorem rateStep_bump (pol : SecurityPolicy) (s : String) (lim : RateLimitRule)
    (now : Nat) (st₀ : SecState) (c : RateCounter)
    (hlim : effRateLimits pol s = some lim)
    (hc : lookupA (s, getMinutesOf now) st₀.rateLimitCounters = some c)
    (hlt : c.count < lim.requestsPerMinute)
    (hconc : (lookupA s st₀.concurrentRequests).getD 0 < lim.maxConcurrent) :
    rateStepOk pol s now st₀ = true ∧
    (rateStepState pol s now st₀).rateLimitCounters
      = cleanupRateLimitCounters now
          (setA (s, getMinutesOf now) ⟨c.count + 1, c.window⟩ st₀.rateLimitCounters) ∧
    (rateStepState pol s now st₀).concurrentRequests = st₀.concurrentRequests := by
  have hne : ¬ ((lookupA s st₀.concurrentRequests).getD 0 ≥ lim.maxConcurrent) := by omega
  have hne2 : ¬ (c.count ≥ lim.requestsPerMinute) := by omega
  refine ⟨?_, ?_, ?_⟩ <;>
    simp [rateStepOk, rateStepState, checkRateLimits, hlim, hc, rateConcurrencyStep, hne, hne2]

/-- One call with the stored counter at (or beyond) the limit: denied, state
untouched. -/
theorem rateStep_full (pol : SecurityPolicy) (s : String) (lim : RateLimitRule)
    (now : Nat) (st₀ : SecState) (c : RateCounter)
    (hlim : effRateLimits pol s = some lim)
    (hc : lookupA (s, getMinutesOf now) st₀.rateLimitCounters = some c)
    (hge : c.count ≥ lim.requestsPerMinute) :
    rateStepOk pol s now st₀ = false ∧ rateStepState pol s now st₀ = st₀ := by
  constructor <;> simp [rateStepOk, rateStepState, checkRateLimits, hlim, hc, hge]

/-- Invariant of repeated admissions at one instant, starting with no stored
counter: after `k` admitted calls the counter reads `k` with the window at
`now`, the concurrency map is untouched, and absent other keys stay absent. -/
theorem rateIter_inv (pol : SecurityPolicy) (s : String) (lim : RateLimitRule)
    (now : Nat) (st : SecState) (hlim : effRateLimits pol s = some lim)
    (hfresh : lookupA (s, getMinutesOf now) st.rateLimitCounters = none)
    (hconc : (lookupA s st.concurrentRequests).getD 0 < lim.maxConcurrent) :
    ∀ k : Nat, k ≤ lim.requestsPerMinute →
      (lookupA (s, getMinutesOf now)
          ((rateStepState pol s now)^[k] st).rateLimitCounters
        = if k = 0 then none else some ⟨k, now⟩) ∧
      ((rateStepState pol s now)^[k] st).concurrentRequests = st.concurrentRequests ∧
      (∀ key' : String × Nat, key' ≠ (s, getMinutesOf now) →
        lookupA key' st.rateLimitCounters = none →
        lookupA key' ((rateStepState pol s now)^[k] st).rateLimitCounters = none) := by
  intro k
  induction k with
  | zero =>
    intro _
    refine ⟨by simpa using hfresh, rfl, fun key' _ h => h⟩
  | succ k ih =>
    intro hk
    have ⟨ihc, ihconc, ihother⟩ := ih (by omega)
    have hconck : (lookupA s ((rateStepState pol s now)^[k] st).concurrentRequests).getD 0
        < lim.maxConcurrent := by rw [ihconc]; exact hconc
    rcases Nat.eq_zero_or_pos k with hk0 | hkpos
    · subst hk0
      simp only [if_pos rfl] at ihc
      have ⟨hok, hcnt, hcc⟩ := rateStep_fresh pol s lim now _ hlim ihc hconck
      rw [Function.iterate_succ_apply']
      refine ⟨?_, ?_, ?_⟩
      · rw [hcnt]
        simp only [if_neg (Nat.one_ne_zero)]
        exact lookupA_cleanup_keep now _ _ ⟨1, now⟩ (lookupA_setA_self _ _ _)
          (show ¬ (now + 120000 < now) by omega)
      · rw [hcc, ihconc]
      · intro key' hne habs
        rw [hcnt]
        exact lookupA_cleanup_none now key' _
          (by rw [lookupA_setA_ne _ _ hne]; exact ihother key' hne habs)
    · have hkne : ¬ (k = 0) := by omega
      rw [if_neg hkne] at ihc
      have ⟨hok, hcnt, hcc⟩ := rateStep_bump pol s lim now _ ⟨k, now⟩ hlim ihc
        (show k < lim.requestsPerMinute by omega) hconck
      rw [Function.iterate_succ_apply']
      refine ⟨?_, ?_, ?_⟩
      · rw [hcnt]
        simp only [if_neg (Nat.succ_ne_zero k)]
        exact lookupA_cleanup_keep now _ _ ⟨k + 1, now⟩ (lookupA_setA_self _ _ _)
          (show ¬ (now + 120000 < now) by omega)
      · rw [hcc, ihconc]
      · intro key' hne habs
        rw [hcnt]
        exact lookupA_cleanup_none now key' _
          (by rw [lookupA_setA_ne _ _ hne]; exact ihother key' hne habs)

/-- A policy with a one-request-per-minute limit for server `s`. -/
def polC6 : SecurityPolicy := { defaultPolicy with rateLimits := [("s", ⟨1, 5⟩)] }

/-- C6 counterexample: counters are keyed by minute-OF-HOUR and stale
entries are only purged during fully admitted checks, so the counter is NOT
reset when a new minute begins in general: after one admitted request at
instant 0, a request one hour later (a fresh minute, minute-of-hour 0
again) finds the stale counter at the limit and is denied — although with
`requests_per_minute = 1` the first request of that window should pass. -/
theorem rateLimit_minute_reset_counterexample :
    checkRateLimits polC6 "s" 0 emptySecState
      = some (true, ⟨[(("s", 0), ⟨1, 0⟩)], [], []⟩) ∧
    getMinutesOf 3600000 = 0 ∧
    checkRateLimits polC6 "s" 3600000 ⟨[(("s", 0), ⟨1, 0⟩)], [], []⟩
      = some (false, ⟨[(("s", 0), ⟨1, 0⟩)], [], []⟩) :=
  ⟨rfl, rfl, rfl⟩

/-- C6 amended: at a fixed instant, starting with no counter stored for the
server's current minute and with concurrency below the cap, the N-th
admitted request passes the rate-limit check and the (N+1)-th is denied
(N = `requests_per_minute`); a rate-limit check never modifies the
concurrency map (in particular a denial does not increment it); and the
counter starts over at 1 in a new minute PROVIDED no stale counter is
stored under the server's new minute-of-hour key. -/
theorem checkRateLimits_amended (pol : SecurityPolicy) (s : String) (lim : RateLimitRule)
    (now : Nat) (st : SecState)
    (hlim : effRateLimits pol s = some lim)
    (hN : 1 ≤ lim.requestsPerMinute)
    (hconc : (lookupA s st.concurrentRequests).getD 0 < lim.maxConcurrent)
    (hfresh : lookupA (s, getMinutesOf now) st.rateLimitCounters = none) :
    (∀ k : Nat, k < lim.requestsPerMinute →
      rateStepOk pol s now ((rateStepState pol s now)^[k] st) = true) ∧
    rateStepOk pol s now ((rateStepState pol s now)^[lim.requestsPerMinute] st) = false ∧
    (∀ (st₀ : SecState) (b : Bool) (st₁ : SecState),
      checkRateLimits pol s now st₀ = some (b, st₁) →
      st₁.concurrentRequests = st₀.concurrentRequests) ∧
    (∀ t' : Nat, getMinutesOf t' ≠ getMinutesOf now →
      lookupA (s, getMinutesOf t') st.rateLimitCounters = none →
      rateStepOk pol s t' ((rateStepState pol s now)^[lim.requestsPerMinute] st) = true ∧
      lookupA (s, getMinutesOf t')
        (rateStepState pol s t'
          ((rateStepState pol s now)^[lim.requestsPerMinute] st)).rateLimitCounters
        = some ⟨1, t'⟩) := by
  refine ⟨?_, ?_, ?_, ?_⟩
  · intro k hk
    obtain ⟨ihc, ihconc, _⟩ := rateIter_inv pol s lim now st hlim hfresh hconc k (by omega)
    have hconck : (lookupA s ((rateStepState pol s now)^[k] st).concurrentRequests).getD 0
        < lim.maxConcurrent := by rw [ihconc]; exact hconc
    rcases Nat.eq_zero_or_pos k with hk0 | hkpos
    · subst hk0
      rw [if_pos rfl] at ihc
      exact (rateStep_fresh pol s lim now _ hlim ihc hconck).1
    · rw [if_neg (by omega)] at ihc
      exact (rateStep_bump pol s lim now _ ⟨k, now⟩ hlim ihc
        (show k < lim.requestsPerMinute by omega) hconck).1
  · obtain ⟨ihc, ihconc, _⟩ :=
      rateIter_inv pol s lim now st hlim hfresh hconc lim.requestsPerMinute le_rfl
    rw [if_neg (by omega)] at ihc
    exact (rateStep_full pol s lim now _ ⟨lim.requestsPerMinute, now⟩ hlim ihc
      (show lim.requestsPerMinute ≥ lim.requestsPerMinute from le_rfl)).1
  · intro st₀ b st₁ h
    exact (checkRateLimits_preserves pol s now st₀ b st₁ h).2
  · intro t' hmin hfresh'
    obtain ⟨_, ihconc, ihother⟩ :=
      rateIter_inv pol s lim now st hlim hfresh hconc lim.requestsPerMinute le_rfl
    have hkey : ((s, getMinutesOf t') : String × Nat) ≠ (s, getMinutesOf now) :=
      fun h => hmin (congrArg Prod.snd h)
    have hfreshN := ihother (s, getMinutesOf t') hkey hfresh'
    have hconcN : (lookupA s
        ((rateStepState pol s now)^[lim.requestsPerMinute] st).concurrentRequests).getD 0
        < lim.maxConcurrent := by rw [ihconc]; exact hconc
    obtain ⟨hok, hcnt, _⟩ := rateStep_fresh pol s lim t' _ hlim hfreshN hconcN
    refine ⟨hok, ?_⟩
    rw [hcnt]
    exact lookupA_cleanup_keep t' _ _ ⟨1, t'⟩ (lookupA_setA_self _ _ _)
      (show ¬ (t' + 120000 < t') by omega)

/-- Witness for C6 amended at the one-per-minute policy: the first request
passes, the second (in the same minute) is denied. -/
theorem checkRateLimits_amended_witness :
    rateStepOk polC6 "s" 0 ((rateStepState polC6 "s" 0)^[0] emptySecState) = true ∧
    rateStepOk polC6 "s" 0 ((rateStepState polC6 "s" 0)^[1] emptySecState) = false :=
  ⟨(checkRateLimits_amended polC6 "s" ⟨1, 5⟩ 0 emptySecState rfl (by decide)
      (by decide) rfl).1 0 (by decide),
   (checkRateLimits_amended polC6 "s" ⟨1, 5⟩ 0 emptySecState rfl (by decide)
      (by decide) rfl).2.1⟩

/-! ## C4: idempotence of input sanitization -/

/-- Does the literal pattern occur (case-insensitively) anywhere in `s`? -/
def occursPat (pat : List Char) : List Char → Bool
  | [] => matchesCI pat []
  | c :: rest => matchesCI pat (c :: rest) || occursPat pat rest

/-- Does the script-tag regex match anywhere in `s`? -/
def occursScript : List Char → Bool
  | [] => (scriptMatchLen []).isSome
  | c :: rest => (scriptMatchLen (c :: rest)).isSome || occursScript rest

/-- No banned pattern of `sanitizeInputs` occurs in the character list. -/
def cleanChars (s : List Char) : Bool :=
  !occursScript s && !occursPat "javascript:".toList s && !occursPat "data:".toList s
    && !occursPat "vbscript:".toList s && !occursPat "onload".toList s
    && !occursPat "onerror".toList s && !occursPat "onclick".toList s

/-- On a pattern-free list, one removal pass changes nothing. -/
theorem scrubF_id (pat : List Char) :
    ∀ (s : List Char) (fuel : Nat), s.length ≤ fuel → occursPat pat s = false →
      scrubF pat fuel s = s
  | [], fuel, _, _ => by cases fuel <;> rfl
  | c :: rest, fuel, hlen, hocc => by
    simp only [occursPat, Bool.or_eq_false_iff] at hocc
    match fuel, hlen with
    | f + 1, hlen =>
      have hm : ¬ (matchesCI pat (c :: rest) = true) := by simp [hocc.1]
      show (if matchesCI pat (c :: rest) then scrubF pat f (rest.drop (pat.length - 1))
            else c :: scrubF pat f rest) = c :: rest
      rw [if_neg hm,
        scrubF_id pat rest f (by simp only [List.length_cons] at hlen; omega) hocc.2]

/-- An alternation with no branch matching at the head yields no match. -/
theorem firstAltMatch_none (pats : List (List Char)) (s : List Char)
    (h : ∀ p ∈ pats, matchesCI p s = false) : firstAltMatch pats s = none := by
  induction pats with
  | nil => rfl
  | cons p ps ih =>
    simp only [firstAltMatch]
    rw [if_neg (by simp [h p (List.mem_cons_self _ _)])]
    exact ih (fun q hq => h q (List.mem_cons_of_mem _ hq))

/-- On a list free of all alternation branches, the pass changes nothing. -/
theorem scrubAltF_id (pats : List (List Char)) :
    ∀ (s : List Char) (fuel : Nat), s.length ≤ fuel →
      (∀ p ∈ pats, occursPat p s = false) → scrubAltF pats fuel s = s
  | [], fuel, _, _ => by cases fuel <;> rfl
  | c :: rest, fuel, hlen, hocc => by
    have hhead : ∀ p ∈ pats, matchesCI p (c :: rest) = false := by
      intro p hp
      have := hocc p hp
      simp only [occursPat, Bool.or_eq_false_iff] at this
      exact this.1
    have htail : ∀ p ∈ pats, occursPat p rest = false := by
      intro p hp
      have := hocc p hp
      simp only [occursPat, Bool.or_eq_false_iff] at this
      exact this.2
    match fuel, hlen with
    | f + 1, hlen =>
      show (match firstAltMatch pats (c :: rest) with
            | some len => scrubAltF pats f (rest.drop (len - 1))
            | none => c :: scrubAltF pats f rest) = c :: rest
      rw [firstAltMatch_none pats _ hhead,
        scrubAltF_id pats rest f (by simp only [List.length_cons] at hlen; omega) htail]

/-- On a list with no script-tag match, the pass changes nothing. -/
theorem scrubScriptF_id :
    ∀ (s : List Char) (fuel : Nat), s.length ≤ fuel → occursScript s = false →
      scrubScriptF fuel s = s
  | [], fuel, _, _ => by cases fuel <;> rfl
  | c :: rest, fuel, hlen, hocc => by
    simp only [occursScript, Bool.or_eq_false_iff] at hocc
    match fuel, hlen with
    | f + 1, hlen =>
      show (match scriptMatchLen (c :: rest) with
            | some len => scrubScriptF f (rest.drop (len - 1))
            | none => c :: scrubScriptF f rest) = c :: rest
      have hnone : scriptMatchLen (c :: rest) = none :=
        Option.not_isSome_iff_eq_none.mp (by simp [hocc.1])
      rw [hnone,
        scrubScriptF_id rest f (by simp only [List.length_cons] at hlen; omega) hocc.2]

/-- On a clean string, the whole sanitizer is the identity. -/
theorem sanitizeString_id (s : String) (h : cleanChars s.data = true) :
    sanitizeString s = s := by
  simp only [cleanChars, Bool.and_eq_true, Bool.not_eq_true'] at h
  obtain ⟨⟨⟨⟨⟨⟨hS, hjs⟩, hdata⟩, hvb⟩, hol⟩, hoe⟩, hoc⟩ := h
  unfold sanitizeString scrubScript scrub scrubAlt
  rw [scrubScriptF_id s.data s.data.length le_rfl hS]
  rw [scrubF_id "javascript:".toList s.data s.data.length le_rfl hjs]
  rw [scrubF_id "data:".toList s.data s.data.length le_rfl hdata]
  rw [scrubF_id "vbscript:".toList s.data s.data.length le_rfl hvb]
  rw [scrubAltF_id _ s.data s.data.length le_rfl ?hp]
  case hp =>
    intro p hp
    simp only [List.mem_cons, List.not_mem_nil, or_false] at hp
    rcases hp with rfl | rfl | rfl
    · exact hol
    · exact hoe
    · exact hoc

/-! Clean inputs (no banned pattern in any string, anywhere) and stable
values (fixed points of `sanitizeInputs`).  A sanitization output is stable:
its object-position strings are clean leftovers, its arrays contain no
null or array items any more (those were re-keyed into objects or threw),
and strings inside arrays are never touched at all. -/

mutual

def cleanVal : JVal → Bool
  | .jstr s => cleanChars s.data
  | .jobj fs => cleanEntries fs
  | .jarr xs => cleanItems xs
  | _ => true

def cleanEntries : List (String × JVal) → Bool
  | [] => true
  | (_, v) :: rest => cleanVal v && cleanEntries rest

def cleanItems : List JVal → Bool
  | [] => true
  | v :: rest => cleanVal v && cleanItems rest

end

mutual

def stableVal : JVal → Bool
  | .jstr s => cleanChars s.data
  | .jobj fs => stableEntries fs
  | .jarr xs => stableItems xs
  | _ => true

def stableEntries : List (String × JVal) → Bool
  | [] => true
  | (_, v) :: rest => stableVal v && stableEntries rest

def stableItems : List JVal → Bool
  | [] => true
  | v :: rest => stableItem v && stableItems rest

/-- Stability of one array item: nulls would throw and nested arrays would
be re-keyed, so neither occurs in a stable array; object items must be
stable records; strings, numbers and booleans pass through untouched. -/
def stableItem : JVal → Bool
  | .jnull => false
  | .jarr _ => false
  | .jobj fs => stableEntries fs
  | _ => true

end

mutual

/-- A stable record is a fixed point of `sanitizeInputs`. -/
theorem stableEntries_fix : ∀ fs : List (String × JVal),
    stableEntries fs = true → sanitizeInputs fs = some fs
  | [], _ => rfl
  | (k, v) :: rest, h => by
    simp only [stableEntries, Bool.and_eq_true] at h
    simp only [sanitizeInputs, stableVal_fix v h.1, stableEntries_fix rest h.2]

theorem stableVal_fix : ∀ v : JVal, stableVal v = true → sanitizeEntryVal v = some v
  | .jstr s, h => by
    simp only [stableVal] at h
    simp only [sanitizeEntryVal, sanitizeString_id s h]
  | .jobj fs, h => by
    simp only [stableVal] at h
    simp only [sanitizeEntryVal, stableEntries_fix fs h]
  | .jarr xs, h => by
    simp only [stableVal] at h
    simp only [sanitizeEntryVal, stableItems_fix xs h]
  | .jnull, _ => rfl
  | .jbool _, _ => rfl
  | .jnum _, _ => rfl

theorem stableItems_fix : ∀ xs : List JVal,
    stableItems xs = true → sanitizeArrItems xs = some xs
  | [], _ => rfl
  | v :: rest, h => by
    simp only [stableItems, Bool.and_eq_true] at h
    have h2 := stableItems_fix rest h.2
    have h1 := h.1
    rcases v with _ | b | n | s | xs₀ | fs
    · exact absurd h1 (by simp [stableItem])
    · simp [sanitizeArrItems, typeofIsObject, h2]
    · simp [sanitizeArrItems, typeofIsObject, h2]
    · simp [sanitizeArrItems, typeofIsObject, h2]
    · exact absurd h1 (by simp [stableItem])
    · simp only [stableItem] at h1
      simp [sanitizeArrItems, typeofIsObject, sanitizeInputsAny,
        stableEntries_fix fs h1, h2]

end

mutual

/-- Sanitizing a clean record yields a stable record. -/
theorem cleanEntries_out : ∀ (fs out : List (String × JVal)),
    cleanEntries fs = true → sanitizeInputs fs = some out → stableEntries out = true
  | [], out, _, h => by
    simp only [sanitizeInputs, Option.some.injEq, reduceCtorEq] at h
    rw [← h]
    rfl
  | (k, v) :: rest, out, hc, h => by
    simp only [cleanEntries, Bool.and_eq_true] at hc
    rcases h1 : sanitizeEntryVal v with _ | v' <;>
      rcases h2 : sanitizeInputs rest with _ | rest' <;>
        simp only [sanitizeInputs, h1, h2, Option.some.injEq, reduceCtorEq] at h
    rw [← h]
    simp only [stableEntries, Bool.and_eq_true]
    exact ⟨cleanVal_out v v' hc.1 h1, cleanEntries_out rest rest' hc.2 h2⟩

theorem cleanVal_out : ∀ (v v' : JVal),
    cleanVal v = true → sanitizeEntryVal v = some v' → stableVal v' = true
  | .jstr s, v', hc, h => by
    simp only [cleanVal] at hc
    simp only [sanitizeEntryVal, sanitizeString_id s hc, Option.some.injEq, reduceCtorEq] at h
    rw [← h]
    simpa [stableVal] using hc
  | .jobj fs, v', hc, h => by
    simp only [cleanVal] at hc
    rcases h1 : sanitizeInputs fs with _ | fs' <;>
      simp only [sanitizeEntryVal, h1, Option.some.injEq, reduceCtorEq] at h
    rw [← h]
    simpa [stableVal] using cleanEntries_out fs fs' hc h1
  | .jarr xs, v', hc, h => by
    simp only [cleanVal] at hc
    rcases h1 : sanitizeArrItems xs with _ | xs' <;>
      simp only [sanitizeEntryVal, h1, Option.some.injEq, reduceCtorEq] at h
    rw [← h]
    simpa [stableVal] using cleanItems_out xs xs' hc h1
  | .jnull, v', _, h => by
    simp only [sanitizeEntryVal, Option.some.injEq, reduceCtorEq] at h
    rw [← h]; rfl
  | .jbool b, v', _, h => by
    simp only [sanitizeEntryVal, Option.some.injEq, reduceCtorEq] at h
    rw [← h]; rfl
  | .jnum n, v', _, h => by
    simp only [sanitizeEntryVal, Option.some.injEq, reduceCtorEq] at h
    rw [← h]; rfl

theorem cleanItems_out : ∀ (xs xs' : List JVal),
    cleanItems xs = true → sanitizeArrItems xs = some xs' → stableItems xs' = true
  | [], xs', _, h => by
    simp only [sanitizeArrItems, Option.some.injEq, reduceCtorEq] at h
    rw [← h]
    rfl
  | v :: rest, xs', hc, h => by
    simp only [cleanItems, Bool.and_eq_true] at hc
    rcases h1 : (if typeofIsObject v then sanitizeInputsAny v else some v) with _ | v' <;>
      rcases h2 : sanitizeArrItems rest with _ | rest' <;>
        simp only [sanitizeArrItems, h1, h2, Option.some.injEq, reduceCtorEq] at h
    rw [← h]
    simp only [stableItems, Bool.and_eq_true]
    refine ⟨?_, cleanItems_out rest rest' hc.2 h2⟩
    by_cases hobj : typeofIsObject v = true
    · rw [if_pos hobj] at h1
      exact cleanAny_out v v' hc.1 h1
    · rw [if_neg hobj] at h1
      injection h1 with h1
      subst h1
      rcases v with _ | b | n | s | xs₀ | fs <;> simp_all [typeofIsObject, stableItem]

theorem cleanAny_out : ∀ (v v' : JVal),
    cleanVal v = true → sanitizeInputsAny v = some v' → stableItem v' = true
  | .jnull, v', _, h => by simp [sanitizeInputsAny] at h
  | .jobj fs, v', hc, h => by
    simp only [cleanVal] at hc
    rcases h1 : sanitizeInputs fs with _ | fs' <;>
      simp only [sanitizeInputsAny, h1, Option.some.injEq, reduceCtorEq] at h
    rw [← h]
    simpa [stableItem] using cleanEntries_out fs fs' hc h1
  | .jarr xs, v', hc, h => by
    simp only [cleanVal] at hc
    rcases h1 : sanitizeEnum 0 xs with _ | fs' <;>
      simp only [sanitizeInputsAny, h1, Option.some.injEq, reduceCtorEq] at h
    rw [← h]
    simpa [stableItem] using cleanEnum_out 0 xs fs' hc h1
  | .jbool b, v', _, h => by
    simp only [sanitizeInputsAny, Option.some.injEq, reduceCtorEq] at h
    rw [← h]; rfl
  | .jnum n, v', _, h => by
    simp only [sanitizeInputsAny, Option.some.injEq, reduceCtorEq] at h
    rw [← h]; rfl
  | .jstr s, v', _, h => by
    simp only [sanitizeInputsAny, Option.some.injEq, reduceCtorEq] at h
    rw [← h]; rfl

theorem cleanEnum_out : ∀ (n : Nat) (xs : List JVal) (out : List (String × JVal)),
    cleanItems xs = true → sanitizeEnum n xs = some out → stableEntries out = true
  | n, [], out, _, h => by
    simp only [sanitizeEnum, Option.some.injEq, reduceCtorEq] at h
    rw [← h]
    rfl
  | n, v :: rest, out, hc, h => by
    simp only [cleanItems, Bool.and_eq_true] at hc
    rcases h1 : sanitizeEntryVal v with _ | v' <;>
      rcases h2 : sanitizeEnum (n + 1) rest with _ | rest' <;>
        simp only [sanitizeEnum, h1, h2, Option.some.injEq, reduceCtorEq] at h
    rw [← h]
    simp only [stableEntries, Bool.and_eq_true]
    exact ⟨cleanVal_out v v' hc.1 h1, cleanEnum_out (n + 1) rest rest' hc.2 h2⟩

end

/-- C4 counterexample: sanitization is not idempotent — removing an inner
occurrence of `javascript:` splices the surrounding characters into a new
occurrence, so a second pass removes more. -/
theorem sanitizeInputs_idempotent_counterexample :
    sanitizeInputs [("a", .jstr "javajavascript:script:")]
      = some [("a", .jstr "javascript:")] ∧
    (sanitizeInputs [("a", .jstr "javajavascript:script:")]).bind sanitizeInputs
      = some [("a", .jstr "")] ∧
    some [("a", JVal.jstr "javascript:")] ≠ some [("a", JVal.jstr "")] := by
  refine ⟨rfl, rfl, by simp⟩

/-- C4 amended: sanitization is idempotent on every parameter record whose
string values (at any depth, including inside arrays) contain no occurrence
of the banned patterns: the first pass leaves such strings unchanged, so a
second pass reproduces the first.  In general idempotence fails, because
removing an occurrence can splice together a new one. -/
theorem sanitizeInputs_idempotent_amended (params : List (String × JVal))
    (h : cleanEntries params = true) :
    (sanitizeInputs params).bind sanitizeInputs = sanitizeInputs params := by
  rcases heq : sanitizeInputs params with _ | out
  · rfl
  · have hstable := cleanEntries_out params out h heq
    simp [stableEntries_fix out hstable]

/-- Witness for C4 amended at a concrete clean record. -/
theorem sanitizeInputs_idempotent_amended_witness :
    (sanitizeInputs [("a", .jstr "hello"), ("b", .jarr [.jnum 1])]).bind sanitizeInputs
      = sanitizeInputs [("a", .jstr "hello"), ("b", .jarr [.jnum 1])] :=
  sanitizeInputs_idempotent_amended [("a", .jstr "hello"), ("b", .jarr [.jnum 1])]
    (by decide)
